import Mathlib

/-!
Verification development for the sphinx-ultra incremental documentation build
engine.  The definitions below are a shallow embedding of the core code:

* `src/src/cache.rs`   — the build cache (`BuildCache`): fingerprinting,
  lookup/store with hit/miss counters, LRU eviction under a size budget,
  persistence to and reload from an on-disk cache directory;
* `src/src/builder.rs` — the build orchestrator (`SphinxBuilder`): source file
  discovery, per-file processing with error propagation, and the post-pass
  validator producing warnings;
* `src/src/error.rs`   — warning/error report values;
* `src/src/document.rs` — the `Document` artifact.

Modelling conventions:

* Rust `PathBuf` values handled by the cache/builder are modelled as plain
  `String`s (the code only ever compares them, hashes them and joins them);
  the recursive directory walk of discovery uses component lists.
* The filesystem is a function `String → Option FileMeta`; `none` means the
  file does not exist / cannot be read.  A single build step sees one fixed
  filesystem value (the code's blocking reads are snapshots of it).
* blake3 hashing is modelled collision-freely: the "hash" of a file is the
  pair of exactly the data the Rust code feeds to the hasher (the content
  bytes, and the seconds-resolution mtime when available).
* `DateTime<Utc>` timestamps are seconds as `Int`; `Duration` is seconds.
* All the `f64` megabyte arithmetic in `cache.rs` divides integer byte counts
  by `1024.0 * 1024.0` and compares the results.  Every such value is an
  integer number of bytes divided by 2^20 and is exactly representable in an
  IEEE double for any realistic cache (total bytes < 2^53), so comparisons of
  those doubles coincide with comparisons of the underlying byte counts.  The
  embedding therefore works at byte granularity with `Nat` arithmetic.
* Concurrency (DashMap, RwLock, rayon) is modelled by explicit sequential
  state passing: the theorems below are about the linearized behaviour of the
  operations, which is what the specification's claims describe.
-/

/-! ## Association lists

`DashMap<PathBuf, CachedDocument>` and `HashMap<PathBuf, String>` are modelled
as association lists with (invariantly) no duplicate keys.  Iteration order of
the hash maps is arbitrary in Rust; the list order plays that role here. -/

def lookupKey {α : Type} : List (String × α) → String → Option α
  | [], _ => none
  | (k', v) :: rest, k => if k' = k then some v else lookupKey rest k

def insertKey {α : Type} : List (String × α) → String → α → List (String × α)
  | [], k, v => [(k, v)]
  | (k', v') :: rest, k, v =>
      if k' = k then (k, v) :: rest else (k', v') :: insertKey rest k v

def eraseKey {α : Type} : List (String × α) → String → List (String × α)
  | [], _ => []
  | (k', v) :: rest, k => if k' = k then rest else (k', v) :: eraseKey rest k

def alterKey {α : Type} : List (String × α) → String → (α → α) → List (String × α)
  | [], _, _ => []
  | (k', v) :: rest, k, f =>
      if k' = k then (k', f v) :: rest else (k', v) :: alterKey rest k f

def keysOf {α : Type} (l : List (String × α)) : List String :=
  l.map Prod.fst

def NodupKeys {α : Type} (l : List (String × α)) : Prop :=
  (keysOf l).Nodup

instance {α : Type} (l : List (String × α)) : Decidable (NodupKeys l) := by
  unfold NodupKeys; infer_instance

/-! ## Filesystem model -/

/-- Observable state of one file: its byte content (as the string the code
reads) and its modification time in whole seconds since the Unix epoch, when
the platform reports one (`metadata.modified()` can fail). -/
structure FileMeta where
  content : String
  mtime : Option Nat
  deriving DecidableEq

/-- A filesystem snapshot: `none` means the path does not exist or reading it
fails with an I/O error. -/
def FS : Type := String → Option FileMeta

/-- A blake3 digest, modelled collision-freely as the exact data fed to the
hasher by `BuildCache::calculate_file_hash`: the file content followed by the
optional little-endian seconds mtime.  Equality of digests then coincides with
equality of the hashed data, which is the idealization of a cryptographic
hash the cache design relies on. -/
def FileHash : Type := String × Option Nat

instance : DecidableEq FileHash := by
  unfold FileHash; infer_instance

/-! ## Document model (`src/src/document.rs`)

Fields never read by the embedded cache/orchestrator code (`metadata`,
`build_time`, `cross_refs`, `toc`, the `directives` list of `RstContent`, the
`ast`/`front_matter` of `MarkdownContent`, and the `options`/`args` maps on
directives beyond those matched) are carried opaquely by the Rust code
(cloned and serialized verbatim) and are omitted from the embedding. -/

inductive RstNode where
  | title (text : String) (level : Nat) (line : Nat)
  | paragraph (content : String) (line : Nat)
  | codeBlock (language : Option String) (content : String) (line : Nat)
  | bulletList (items : List String) (ordered : Bool) (line : Nat)
  | table (headers : List String) (rows : List (List String)) (line : Nat)
  | directive (name : String) (args : List String) (content : String) (line : Nat)
  deriving DecidableEq

structure RstContent where
  raw : String
  ast : List RstNode
  deriving DecidableEq

structure MarkdownContent where
  raw : String
  deriving DecidableEq

inductive DocumentContent where
  | restructuredText (rst : RstContent)
  | markdown (md : MarkdownContent)
  | plainText (text : String)
  deriving DecidableEq

/-- Display for `DocumentContent`: the raw text of the document. -/
def contentToString : DocumentContent → String
  | .restructuredText rst => rst.raw
  | .markdown md => md.raw
  | .plainText text => text

structure Document where
  source_path : String
  output_path : String
  title : String
  content : DocumentContent
  html : String
  source_mtime : Int
  deriving DecidableEq

/-! ## Build cache (`src/src/cache.rs`) -/

/-- Rust `CachedDocument`: one in-memory cache entry. -/
structure CachedDocument where
  document : Document
  hash : FileHash
  cached_at : Int
  access_count : Nat
  size_bytes : Nat
  deriving DecidableEq

/-- The state of a `BuildCache`.  `disk` is the contents of the cache
directory: file name ↦ decoded entry (`none` models a file whose bytes do not
deserialize to a `CachedDocument`, i.e. a corrupt cache file). -/
structure CacheState where
  documents : List (String × CachedDocument)
  file_hashes : List (String × FileHash)
  hit_count : Nat
  miss_count : Nat
  max_size_mb : Nat
  expiration_secs : Nat
  disk : List (String × Option CachedDocument)
  deriving DecidableEq

/-- The in-memory fields `BuildCache::new` sets up before `load_from_disk`
runs: empty maps, zero counters, 500 MB budget, 24 h expiry. -/
def newCacheState : CacheState :=
  { documents := [], file_hashes := [], hit_count := 0, miss_count := 0,
    max_size_mb := 500, expiration_secs := 24 * 60 * 60, disk := [] }

/-- Method `BuildCache::calculate_file_hash`: read the file, hash its content, then
mix in the mtime (seconds since epoch) when the metadata reports one.  Fails
(`?`) when the file cannot be read. -/
def calculate_file_hash (fs : FS) (file_path : String) : Except Unit FileHash :=
  match fs file_path with
  | none => .error ()
  | some m => .ok (m.content, m.mtime)

/-- Method `BuildCache::is_expired`: strictly more than `expiration_duration`
seconds have elapsed since `cached_at`. -/
def is_expired (s : CacheState) (cached_at now : Int) : Bool :=
  decide ((s.expiration_secs : Int) < now - cached_at)

/-- Method `BuildCache::estimate_document_size`. -/
def estimate_document_size (document : Document) : Nat :=
  document.html.length + document.title.length
    + document.source_path.length + document.output_path.length + 1024

/-- Total estimated size (bytes) of all in-memory entries; `size_mb` in the
source is this divided by 2^20. -/
def totalBytes (documents : List (String × CachedDocument)) : Nat :=
  (documents.map (fun e => e.2.size_bytes)).sum

/-- Method `BuildCache::get_document`: recompute the fingerprint (propagating I/O
failure before anything else happens), then hit (bump access count and the
hit counter, return a copy of the document) or miss (drop any stale/expired
entry and bump the miss counter). -/
def get_document (fs : FS) (now : Int) (s : CacheState) (file_path : String) :
    CacheState × Except Unit Document :=
  match calculate_file_hash fs file_path with
  | .error e => (s, .error e)
  | .ok hash =>
    match lookupKey s.documents file_path with
    | some cached =>
      if cached.hash = hash ∧ is_expired s cached.cached_at now = false then
        ({ s with
            documents := alterKey s.documents file_path
              (fun c => { c with access_count := c.access_count + 1 }),
            hit_count := s.hit_count + 1 },
         .ok cached.document)
      else
        ({ s with documents := eraseKey s.documents file_path,
                  miss_count := s.miss_count + 1 },
         .error ())
    | none =>
      ({ s with miss_count := s.miss_count + 1 }, .error ())

/-- Method `BuildCache::get_cache_file_path`: the on-disk shadow file of a source
path.  The source names it by the hex blake3 digest of the path string; the
digest is modelled injectively by the path itself. -/
def get_cache_file_path (file_path : String) : String :=
  file_path ++ ".json"

/-- Method `BuildCache::persist_to_disk`: serialize the entry currently stored for
`file_path` (if any) into its shadow file. -/
def persist_to_disk (s : CacheState) (file_path : String) : CacheState :=
  match lookupKey s.documents file_path with
  | some cached =>
      { s with disk := insertKey s.disk (get_cache_file_path file_path) (some cached) }
  | none => s

/-- One step of the loop in `BuildCache::evict_lru_entries`: walk the sorted
`(path, access_count, size_bytes)` triples, stopping as soon as the freed
space reaches the requested space, otherwise removing the entry from both
in-memory maps and accumulating its size.  The loop touches only the two
maps, so it is stated as a function of them. -/
def evictGo (needed : Nat) : List (String × Nat × Nat) →
    List (String × CachedDocument) → List (String × FileHash) → Nat →
    List (String × CachedDocument) × List (String × FileHash)
  | [], documents, file_hashes, _ => (documents, file_hashes)
  | entry :: rest, documents, file_hashes, freed =>
    if needed ≤ freed then (documents, file_hashes)
    else
      evictGo needed rest (eraseKey documents entry.1) (eraseKey file_hashes entry.1)
        (freed + entry.2.2)

/-- The `(key, access_count, size_bytes)` triples collected from the entry
map at the start of `evict_lru_entries`. -/
def entryTriples (documents : List (String × CachedDocument)) :
    List (String × Nat × Nat) :=
  documents.map (fun e => (e.1, e.2.access_count, e.2.size_bytes))

/-- Stable insertion (by ascending access count) used to model the stable
`sort_by_key(access_count)`. -/
def insertByAccess (x : String × Nat × Nat) :
    List (String × Nat × Nat) → List (String × Nat × Nat)
  | [] => [x]
  | y :: ys => if y.2.1 ≤ x.2.1 then y :: insertByAccess x ys else x :: y :: ys

/-- Stable sort by ascending access count (`entries.sort_by_key`). -/
def sortByAccess : List (String × Nat × Nat) → List (String × Nat × Nat)
  | [] => []
  | x :: xs => insertByAccess x (sortByAccess xs)

/-- Method `BuildCache::evict_lru_entries` (space accounting in bytes — see the f64
note in the header). -/
def evict_lru_entries (s : CacheState) (space_needed : Nat) : CacheState :=
  let result :=
    evictGo space_needed (sortByAccess (entryTriples s.documents))
      s.documents s.file_hashes 0
  { s with documents := result.1, file_hashes := result.2 }

/-- Method `BuildCache::evict_if_needed`: evict when the projected total would
strictly exceed the budget. -/
def evict_if_needed (s : CacheState) (new_size : Nat) : CacheState :=
  if s.max_size_mb * 1048576 < totalBytes s.documents + new_size then
    evict_lru_entries s new_size
  else s

/-- Method `BuildCache::store_document`: fingerprint the source file (propagating
I/O failure), build the entry with `access_count = 1`, evict if needed,
insert into both maps, then mirror the entry to its on-disk shadow file. -/
def store_document (fs : FS) (now : Int) (s : CacheState)
    (file_path : String) (document : Document) : Except Unit CacheState :=
  match calculate_file_hash fs file_path with
  | .error e => .error e
  | .ok hash =>
    let size_bytes := estimate_document_size document
    let cached : CachedDocument :=
      { document := document, hash := hash, cached_at := now,
        access_count := 1, size_bytes := size_bytes }
    let s1 := evict_if_needed s size_bytes
    let s2 := { s1 with
        documents := insertKey s1.documents file_path cached,
        file_hashes := insertKey s1.file_hashes file_path hash }
    .ok (persist_to_disk s2 file_path)

/-- Method `BuildCache::invalidate`: drop the entry from both in-memory maps and
delete its on-disk shadow file (a failed delete is only logged; deletion is
modelled by `eraseKey`, which also covers the file-absent case). -/
def invalidate (s : CacheState) (file_path : String) : CacheState :=
  { s with documents := eraseKey s.documents file_path,
           file_hashes := eraseKey s.file_hashes file_path,
           disk := eraseKey s.disk (get_cache_file_path file_path) }

/-- Rust `str::starts_with` (`String.startsWith` over the character list, so
that proofs can evaluate it). -/
def strStartsWith (s pre : String) : Bool :=
  pre.data.isPrefixOf s.data

/-- Split a character list at every occurrence of `c` (the single-character
case of Rust `str::split` / `String.splitOn`). -/
def splitCharList (c : Char) : List Char → List (List Char)
  | [] => [[]]
  | x :: xs =>
    match splitCharList c xs with
    | [] => [[]]
    | y :: ys => if x = c then [] :: y :: ys else (x :: y) :: ys

/-- Like `String.splitOn` with a single-character separator (every separator the
embedded code uses is one character: dots, slashes, newlines). -/
def splitOnChar (c : Char) (s : String) : List String :=
  (splitCharList c s.data).map String.mk

/-- Rust `str::trim` (whitespace at both ends; Unicode-exotic whitespace is
immaterial to the embedded code). -/
def trimStr (s : String) : String :=
  String.mk (((s.data.dropWhile Char.isWhitespace).reverse.dropWhile Char.isWhitespace).reverse)

/-- Rust `Path::extension` restricted to a bare file name: the part after the
last dot, unless there is no dot or the only dot is the leading one. -/
def fileExtension (name : String) : Option String :=
  match splitOnChar '.' name with
  | [] => none
  | [_] => none
  | "" :: [_] => none
  | parts => parts.getLast?

/-- The `extension().is_some_and(|ext| ext == "json")` filter of
`load_from_disk`. -/
def hasJsonExtension (name : String) : Bool :=
  fileExtension name = some "json"

/-- Method `BuildCache::load_cache_file`: decode the persisted entry (a corrupt file
is the `none` case and yields the error the caller logs and skips), then keep
it only if it is not expired, its source file still exists, and the freshly
computed fingerprint matches the persisted one. -/
def load_cache_file (fs : FS) (now : Int) (s : CacheState)
    (content : Option CachedDocument) : Except Unit CacheState :=
  match content with
  | none => .error ()
  | some cached =>
    if is_expired s cached.cached_at now = true then .ok s
    else if (fs cached.document.source_path).isSome = true then
      match calculate_file_hash fs cached.document.source_path with
      | .error e => .error e
      | .ok current_hash =>
        if current_hash = cached.hash then
          .ok { s with
                documents := insertKey s.documents cached.document.source_path cached }
        else .ok s
    else .ok s

/-- Method `BuildCache::load_from_disk`: walk the cache directory, and for every
regular file with a `json` extension try `load_cache_file`, logging and
skipping (never propagating) any per-file failure.  The function is total:
a corrupt persisted file can never make startup fail. -/
def load_from_disk (fs : FS) (now : Int) (s : CacheState) : CacheState :=
  s.disk.foldl
    (fun acc entry =>
      if hasJsonExtension entry.1 = true then
        match load_cache_file fs now acc entry.2 with
        | .ok s2 => s2
        | .error _ => acc
      else acc)
    s

/-! ## Warning and error reports (`src/src/error.rs`) -/

inductive WarningType where
  | missingToctreeRef
  | orphanedDocument
  | brokenCrossReference
  | missingFile
  | unusedLabel
  | duplicateLabel
  | emptyToctree
  | other
  deriving DecidableEq

inductive ErrorType where
  | parseError
  | fileNotFound
  | templateError
  | syntaxError
  | other
  deriving DecidableEq

structure BuildWarning where
  file : String
  line : Option Nat
  message : String
  warning_type : WarningType
  deriving DecidableEq

structure BuildErrorReport where
  file : String
  line : Option Nat
  message : String
  error_type : ErrorType
  deriving DecidableEq

/-- Constructor `BuildWarning::missing_toctree_ref`. -/
def BuildWarning.missing_toctree_ref (file : String) (line : Option Nat)
    (reference : String) : BuildWarning :=
  { file := file, line := line,
    message := "toctree contains reference to nonexisting document '" ++ reference ++ "'",
    warning_type := .missingToctreeRef }

/-- Constructor `BuildWarning::orphaned_document`. -/
def BuildWarning.orphaned_document (file : String) : BuildWarning :=
  { file := file, line := none,
    message := "document isn't included in any toctree",
    warning_type := .orphanedDocument }

/-! ## File discovery (`SphinxBuilder::discover_files_sync`)

The directory tree under the source root is a list of entries; paths are
component lists (`entry.path()` joins the walked directory with the entry
name).  `SphinxBuilder` carries `output_dir` in `self`; it is passed along
here (unused by the walk, exactly as in the source, where only entry names
decide skipping). -/

inductive FsTree where
  | file (name : String)
  | dir (name : String) (entries : List FsTree)

/-- The hidden/build-artifact directory filter in `discover_files_sync`. -/
def skipDirName (name : String) : Bool :=
  strStartsWith name "." || name = "_build" || name = "__pycache__"

/-- Method `SphinxBuilder::is_source_file`: recognized source extensions. -/
def is_source_file (name : String) : Bool :=
  match fileExtension name with
  | some ext => ext = "rst" || ext = "md" || ext = "txt"
  | none => false

mutual

/-- One directory entry of `discover_files_sync`: recurse into non-skipped
directories, collect recognized files. -/
def discoverEntry (output_dir : List String) : FsTree → List String → List (List String)
  | .file name, pre =>
      if is_source_file name then [pre ++ [name]] else []
  | .dir name sub, pre =>
      if skipDirName name then [] else discoverList output_dir sub (pre ++ [name])

/-- The `for entry in read_dir(dir)` loop of `discover_files_sync`. -/
def discoverList (output_dir : List String) : List FsTree → List String → List (List String)
  | [], _ => []
  | t :: ts, pre => discoverEntry output_dir t pre ++ discoverList output_dir ts pre

end

/-- Method `SphinxBuilder::discover_source_files`: walk the source root. -/
def discover_source_files (output_dir source_dir : List String)
    (rootEntries : List FsTree) : List (List String) :=
  discoverList output_dir rootEntries source_dir

/-- Paths the walk can collect: a recognized file directly in the entry list,
or a path through a directory that the name filter does not skip. -/
inductive SelectedPath : List FsTree → List String → Prop where
  | file {entries : List FsTree} {name : String} :
      FsTree.file name ∈ entries → is_source_file name = true →
      SelectedPath entries [name]
  | dir {entries sub : List FsTree} {d : String} {rest : List String} :
      FsTree.dir d sub ∈ entries → skipDirName d = false →
      SelectedPath sub rest → SelectedPath entries (d :: rest)

/-! ## Builder configuration and path helpers (`src/src/builder.rs`) -/

/-- The slice of `BuildConfig` (`src/src/config.rs`) the embedded claims
touch; the many remaining fields are never read by the embedded functions. -/
structure BuildConfig where
  root_doc : Option String
  deriving DecidableEq

/-- String-path counterpart of `file_path.strip_prefix(&self.source_dir)`
being possible. -/
def underDir (source_dir file_path : String) : Bool :=
  strStartsWith file_path (source_dir ++ "/")

/-- Drop a final extension from the last component of a path, as
`Path::with_extension("")` does. -/
def removeExtension (p : String) : String :=
  let comps := splitOnChar '/' p
  let last := (comps.getLast?).getD ""
  let stem :=
    match fileExtension last with
    | some ext => last.dropRight (ext.length + 1)
    | none => last
  String.intercalate "/" (comps.dropLast ++ [stem])

/-- Rust `doc.source_path.strip_prefix(&self.source_dir).unwrap_or(&doc.source_path)`. -/
def relativeToSource (source_dir p : String) : String :=
  if underDir source_dir p then p.drop (source_dir.length + 1) else p

/-- The relative, extension-free name a document is known by during
validation (`doc_path_no_ext.to_string_lossy()`). -/
def doc_path_str (source_dir : String) (doc : Document) : String :=
  removeExtension (relativeToSource source_dir doc.source_path)

/-! ## Validator (`SphinxBuilder::validate_documents`) -/

/-- The line filter inside `extract_toctree_references`: non-empty trimmed
lines that are neither options (`:`…) nor comments (`..`…).  `content.lines()`
is `splitOn "\n"` up to a trailing `\r`, which trimming removes either way. -/
def toctreeLines (content : String) : List String :=
  (splitOnChar '\n' content).filterMap (fun line =>
    let trimmed := trimStr line
    if trimmed ≠ "" ∧ ¬ strStartsWith trimmed ":" = true ∧ ¬ strStartsWith trimmed ".." = true then
      some trimmed
    else none)

/-- Method `SphinxBuilder::extract_toctree_references`: all references of all
`toctree` directives of an RST document; `none` when there are none. -/
def extract_toctree_references (doc : Document) : Option (List String) :=
  let references :=
    match doc.content with
    | .restructuredText rst =>
        (rst.ast.map (fun node =>
          match node with
          | .directive name _ content _ =>
              if name = "toctree" then toctreeLines content else []
          | _ => [])).flatten
    | _ => []
  if references = [] then none else some references

/-- The `referenced_files` set (modelled as a list; only membership is ever
used, so hash-set iteration order and deduplication are immaterial). -/
def referenced_files (docs : List Document) : List String :=
  (docs.map (fun d => (extract_toctree_references d).getD [])).flatten

/-- The `all_documents` set of relative extension-free document names. -/
def all_documents (source_dir : String) (docs : List Document) : List String :=
  docs.map (doc_path_str source_dir)

/-- The `toctree_references` set of `(referencing document, reference)`
pairs. -/
def toctree_reference_pairs (docs : List Document) : List (String × String) :=
  (docs.map (fun d =>
    ((extract_toctree_references d).getD []).map (fun r => (d.source_path, r)))).flatten

/-- The first validation loop: a warning per toctree reference that resolves
neither to `<ref>/index` nor to `<ref>` among the produced documents. -/
def missing_ref_warnings (source_dir : String) (docs : List Document) :
    List BuildWarning :=
  (toctree_reference_pairs docs).filterMap (fun e =>
    if (e.2 ++ "/index") ∈ all_documents source_dir docs ∨
        e.2 ∈ all_documents source_dir docs then none
    else some (BuildWarning.missing_toctree_ref e.1 (some 10) e.2))

/-- The reachability test of the orphan loop: some collected reference equals
the document name, or equals `<name>/index`, or is a path-prefix ancestor. -/
def isReferenced (docs : List Document) (doc_str : String) : Bool :=
  (referenced_files docs).any (fun r =>
    r = doc_str || r = doc_str ++ "/index" || strStartsWith doc_str (r ++ "/"))

/-- The second validation loop: an orphan warning per produced document that
is not named `index` and is not referenced from any toctree. -/
def orphan_warnings (source_dir : String) (docs : List Document) :
    List BuildWarning :=
  docs.filterMap (fun doc =>
    let ds := doc_path_str source_dir doc
    if ds = "index" then none
    else if isReferenced docs ds then none
    else some (BuildWarning.orphaned_document doc.source_path))

/-- Method `SphinxBuilder::validate_documents`: the warnings it appends to
`self.warnings`, in loop order.  The builder's `config` (which carries
`root_doc`) is in scope as in the source — and, as in the source, never
consulted. -/
def validate_documents (_config : BuildConfig) (source_dir : String)
    (docs : List Document) : List BuildWarning :=
  missing_ref_warnings source_dir docs ++ orphan_warnings source_dir docs

/-- Wrapper: `validate_documents` as it acts on the builder's accumulated warning and
error collections: it appends warnings and never touches errors. -/
def validate_documents_run (config : BuildConfig) (source_dir : String)
    (docs : List Document) (warnings : List BuildWarning)
    (errors : List BuildErrorReport) :
    List BuildWarning × List BuildErrorReport :=
  (warnings ++ validate_documents config source_dir docs, errors)

/-! ## File processing (`SphinxBuilder::process_single_file` /
`process_files_parallel`)

The parser and the HTML text escaper are external collaborators (out of the
spec's core scope) and enter as function-valued fields.  Output-file writes
are modelled as updates to an output map (the embedding's filesystem writes
always succeed; the claims settled here do not concern write failures).
`process_files_parallel` collects per-file `Result`s into a single `Result`
exactly as `par_iter().map(...).collect::<Result<Vec<_>, _>>()` does: any
file's failure makes the whole collection an error.  The embedding
linearizes the pool's execution. -/

structure BuilderEnv where
  source_dir : String
  output_dir : String
  incremental : Bool
  parse : String → String → Except Unit Document
  escape : String → String
  fs : FS

/-- Mutable state a processing run threads: the build cache and the written
output files. -/
structure BuildState where
  cache : CacheState
  outputs : List (String × String)

/-- Rust `std::fs::read_to_string`. -/
def read_to_string (fs : FS) (file_path : String) : Except Unit String :=
  match fs file_path with
  | none => .error ()
  | some m => .ok m.content

/-- Helper `utils::get_file_mtime`: fails when the file's metadata (or its mtime)
cannot be retrieved. -/
def get_file_mtime (fs : FS) (file_path : String) : Except Unit Int :=
  match fs file_path with
  | none => .error ()
  | some m =>
    match m.mtime with
    | none => .error ()
    | some t => .ok (t : Int)

/-- Method `SphinxBuilder::get_output_path`: output dir joined with the source-root
relative path, extension changed to `html`. -/
def get_output_path (source_dir output_dir file_path : String) : String :=
  output_dir ++ "/" ++ removeExtension (file_path.drop (source_dir.length + 1)) ++ ".html"

/-- The parse-render-write-store tail of `process_single_file`, reached when
the cache did not serve the file. -/
def processFresh (env : BuilderEnv) (now : Int) (st : BuildState) (file_path : String) :
    Except Unit (Document × BuildState) :=
  match read_to_string env.fs file_path with
  | .error e => .error e
  | .ok content =>
    match env.parse file_path content with
    | .error e => .error e
    | .ok document =>
      let rendered :=
        "<html><body>" ++ env.escape (contentToString document.content) ++ "</body></html>"
      let output_path := get_output_path env.source_dir env.output_dir file_path
      let st1 := { st with outputs := insertKey st.outputs output_path rendered }
      if env.incremental then
        match store_document env.fs now st1.cache file_path document with
        | .error e => .error e
        | .ok c2 => .ok (document, { st1 with cache := c2 })
      else .ok (document, st1)

/-- Method `SphinxBuilder::process_single_file`: strip the source prefix (failing
like `strip_prefix?` when the file is not under the source root), consult the
cache in incremental mode (honouring a hit only when the cached document is
at least as new as the file), otherwise parse, render, write and (in
incremental mode) store. -/
def process_single_file (env : BuilderEnv) (now : Int) (st : BuildState)
    (file_path : String) : Except Unit (Document × BuildState) :=
  if underDir env.source_dir file_path = false then .error ()
  else if env.incremental then
    match get_document env.fs now st.cache file_path with
    | (cache1, .ok cached_doc) =>
      match get_file_mtime env.fs file_path with
      | .error e => .error e
      | .ok file_mtime =>
        if file_mtime ≤ cached_doc.source_mtime then
          .ok (cached_doc, { st with cache := cache1 })
        else processFresh env now { st with cache := cache1 } file_path
    | (cache1, .error _) => processFresh env now { st with cache := cache1 } file_path
  else processFresh env now st file_path

/-- Method `SphinxBuilder::process_files_parallel`: process every discovered file,
collecting the documents; the first failure (in the model's linearization)
makes the whole stage fail, and no document list is produced. -/
def process_files_parallel (env : BuilderEnv) (now : Int) (st : BuildState) :
    List String → Except Unit (List Document × BuildState)
  | [] => .ok ([], st)
  | file_path :: rest =>
    match process_single_file env now st file_path with
    | .error e => .error e
    | .ok (document, st1) =>
      match process_files_parallel env now st1 rest with
      | .error e => .error e
      | .ok (documents, st2) => .ok (document :: documents, st2)

/-! ## Association-list lemmas -/

theorem lookupKey_insertKey_self {α : Type} (l : List (String × α)) (k : String) (v : α) :
    lookupKey (insertKey l k v) k = some v := by
  induction l with
  | nil => simp [insertKey, lookupKey]
  | cons e rest ih =>
    by_cases h : e.1 = k
    · simp [insertKey, h, lookupKey]
    · simpa [insertKey, h, lookupKey] using ih

theorem lookupKey_insertKey_ne {α : Type} (l : List (String × α)) (k k' : String) (v : α)
    (h : k' ≠ k) : lookupKey (insertKey l k v) k' = lookupKey l k' := by
  have h' : ¬ k = k' := fun hc => h hc.symm
  induction l with
  | nil => simp [insertKey, lookupKey, h']
  | cons e rest ih =>
    by_cases he : e.1 = k
    · subst he
      simp [insertKey, lookupKey, h']
    · by_cases he' : e.1 = k'
      · simp [insertKey, he, lookupKey, he', h]
      · simpa [insertKey, he, lookupKey, he'] using ih

theorem eraseKey_sublist {α : Type} (l : List (String × α)) (k : String) :
    (eraseKey l k).Sublist l := by
  induction l with
  | nil => simp [eraseKey]
  | cons e rest ih =>
    by_cases h : e.1 = k
    · simp [eraseKey, h]
    · simpa [eraseKey, h] using ih.cons₂ e

theorem nodupKeys_eraseKey {α : Type} (l : List (String × α)) (k : String)
    (h : NodupKeys l) : NodupKeys (eraseKey l k) :=
  List.Nodup.sublist (List.Sublist.map Prod.fst (eraseKey_sublist l k)) h

theorem lookupKey_eq_none_of_not_mem {α : Type} (l : List (String × α)) (k : String)
    (h : k ∉ keysOf l) : lookupKey l k = none := by
  induction l with
  | nil => simp [lookupKey]
  | cons e rest ih =>
    have h1 : ¬ e.1 = k := fun hc => h (by simp [keysOf, hc])
    have h2 : k ∉ keysOf rest := fun hc => h (by
      simp [keysOf] at hc ⊢
      exact Or.inr hc)
    simp [lookupKey, h1, ih h2]

theorem lookupKey_eraseKey_self {α : Type} (l : List (String × α)) (k : String)
    (h : NodupKeys l) : lookupKey (eraseKey l k) k = none := by
  induction l with
  | nil => simp [eraseKey, lookupKey]
  | cons e rest ih =>
    have hn := List.nodup_cons.mp h
    by_cases he : e.1 = k
    · subst he
      simp only [eraseKey, if_pos rfl]
      exact lookupKey_eq_none_of_not_mem rest e.1 hn.1
    · simpa [eraseKey, he, lookupKey, he] using ih hn.2

theorem lookupKey_eraseKey_ne {α : Type} (l : List (String × α)) (k k' : String)
    (h : k' ≠ k) : lookupKey (eraseKey l k) k' = lookupKey l k' := by
  induction l with
  | nil => simp [eraseKey]
  | cons e rest ih =>
    by_cases he : e.1 = k
    · subst he
      have h' : ¬ e.1 = k' := fun hc => h hc.symm
      simp [eraseKey, lookupKey, h']
    · by_cases he' : e.1 = k'
      · simp [eraseKey, he, lookupKey, he', h]
      · simpa [eraseKey, he, lookupKey, he'] using ih

theorem mem_keysOf_insertKey {α : Type} (l : List (String × α)) (k k' : String) (v : α)
    (h : k' ∈ keysOf (insertKey l k v)) : k' = k ∨ k' ∈ keysOf l := by
  induction l with
  | nil => simpa [insertKey, keysOf] using h
  | cons e rest ih =>
    by_cases he : e.1 = k
    · subst he
      simpa [insertKey, keysOf] using h
    · simp only [insertKey, if_neg he, keysOf, List.map_cons, List.mem_cons] at h
      rcases h with h | h
      · exact Or.inr (by simp [keysOf, h])
      · rcases ih h with h | h
        · exact Or.inl h
        · exact Or.inr (by simp [keysOf] at h ⊢; exact Or.inr h)

theorem nodupKeys_insertKey {α : Type} (l : List (String × α)) (k : String) (v : α)
    (h : NodupKeys l) : NodupKeys (insertKey l k v) := by
  induction l with
  | nil => simp [insertKey, NodupKeys, keysOf]
  | cons e rest ih =>
    have hn := List.nodup_cons.mp h
    by_cases he : e.1 = k
    · subst he
      simp only [insertKey, if_pos rfl]
      exact List.nodup_cons.mpr ⟨hn.1, hn.2⟩
    · have ihr := ih hn.2
      unfold NodupKeys keysOf
      simp only [insertKey, if_neg he, List.map_cons]
      refine List.nodup_cons.mpr ⟨?_, ihr⟩
      intro hc
      rcases mem_keysOf_insertKey rest k e.1 v hc with h1 | h1
      · exact he h1
      · exact hn.1 h1

theorem lookupKey_of_mem {α : Type} (l : List (String × α)) (k : String) (v : α)
    (h : NodupKeys l) (hm : (k, v) ∈ l) : lookupKey l k = some v := by
  induction l with
  | nil => simp at hm
  | cons e rest ih =>
    have hn := List.nodup_cons.mp h
    rcases List.mem_cons.mp hm with hm | hm
    · simp [lookupKey, ← hm]
    · have hne : e.1 ≠ k := by
        intro hc
        apply hn.1
        rw [hc]
        exact List.mem_map_of_mem Prod.fst hm
      simp only [lookupKey, if_neg hne]
      exact ih hn.2 hm

theorem totalBytes_insertKey_le (l : List (String × CachedDocument)) (k : String)
    (v : CachedDocument) :
    totalBytes (insertKey l k v) ≤ totalBytes l + v.size_bytes := by
  induction l with
  | nil => simp [insertKey, totalBytes]
  | cons e rest ih =>
    by_cases he : e.1 = k
    · simp only [insertKey, if_pos he, totalBytes, List.map_cons, List.sum_cons]
      omega
    · simp only [insertKey, if_neg he, totalBytes, List.map_cons, List.sum_cons] at ih ⊢
      omega

theorem totalBytes_eraseKey (l : List (String × CachedDocument)) (k : String)
    (c : CachedDocument) (h : NodupKeys l) (hl : lookupKey l k = some c) :
    totalBytes l = totalBytes (eraseKey l k) + c.size_bytes := by
  induction l with
  | nil => simp [lookupKey] at hl
  | cons e rest ih =>
    have hn := List.nodup_cons.mp h
    by_cases he : e.1 = k
    · have : e.2 = c := by simpa [lookupKey, he] using hl
      simp only [eraseKey, if_pos he, totalBytes, List.map_cons, List.sum_cons, this]
      omega
    · have hl' : lookupKey rest k = some c := by simpa [lookupKey, he] using hl
      have := ih hn.2 hl'
      simp only [eraseKey, if_neg he, totalBytes, List.map_cons, List.sum_cons] at this ⊢
      omega

/-! ## Eviction lemmas -/

def sumSizes (entries : List (String × Nat × Nat)) : Nat :=
  (entries.map (fun e => e.2.2)).sum

theorem insertByAccess_perm (x : String × Nat × Nat) (l : List (String × Nat × Nat)) :
    (insertByAccess x l).Perm (x :: l) := by
  induction l with
  | nil => simp [insertByAccess]
  | cons y ys ih =>
    by_cases h : y.2.1 ≤ x.2.1
    · simp only [insertByAccess, if_pos h]
      exact (ih.cons y).trans (List.Perm.swap x y ys)
    · simp [insertByAccess, h]

theorem sortByAccess_perm (l : List (String × Nat × Nat)) :
    (sortByAccess l).Perm l := by
  induction l with
  | nil => simp [sortByAccess]
  | cons x xs ih => exact (insertByAccess_perm x (sortByAccess xs)).trans (ih.cons x)

theorem sumSizes_sortByAccess (l : List (String × Nat × Nat)) :
    sumSizes (sortByAccess l) = sumSizes l := by
  simp only [sumSizes]
  exact ((sortByAccess_perm l).map (fun e => e.2.2)).sum_eq

theorem keys_sortByAccess_nodup (l : List (String × Nat × Nat))
    (h : (l.map (fun e => e.1)).Nodup) : ((sortByAccess l).map (fun e => e.1)).Nodup :=
  (((sortByAccess_perm l).map (fun e => e.1)).nodup_iff).mpr h

theorem mem_sortByAccess (l : List (String × Nat × Nat)) (e : String × Nat × Nat)
    (h : e ∈ sortByAccess l) : e ∈ l :=
  (sortByAccess_perm l).mem_iff.mp h

theorem keys_entryTriples (documents : List (String × CachedDocument)) :
    (entryTriples documents).map (fun e => e.1) = keysOf documents := by
  simp [entryTriples, keysOf, List.map_map]

theorem sumSizes_entryTriples (documents : List (String × CachedDocument)) :
    sumSizes (entryTriples documents) = totalBytes documents := by
  simp only [entryTriples, sumSizes, totalBytes, List.map_map]
  rfl

theorem mem_entryTriples (documents : List (String × CachedDocument))
    (e : String × Nat × Nat) (h : e ∈ entryTriples documents) :
    ∃ c, (e.1, c) ∈ documents ∧ c.size_bytes = e.2.2 := by
  simp only [entryTriples, List.mem_map] at h
  rcases h with ⟨a, ha, rfl⟩
  exact ⟨a.2, ha, rfl⟩

theorem evictGo_nodup (needed : Nat) (es : List (String × Nat × Nat)) :
    ∀ (documents : List (String × CachedDocument)) (file_hashes : List (String × FileHash))
      (freed : Nat), NodupKeys documents →
      NodupKeys (evictGo needed es documents file_hashes freed).1 := by
  induction es with
  | nil =>
    intro documents file_hashes freed h
    simpa [evictGo] using h
  | cons e rest ih =>
    intro documents file_hashes freed h
    by_cases hf : needed ≤ freed
    · simpa [evictGo, hf] using h
    · simp only [evictGo, if_neg hf]
      exact ih _ _ _ (nodupKeys_eraseKey _ _ h)

theorem evictGo_total_le (needed : Nat) (es : List (String × Nat × Nat)) :
    ∀ (documents : List (String × CachedDocument)) (file_hashes : List (String × FileHash))
      (freed : Nat),
    NodupKeys documents →
    (es.map (fun e => e.1)).Nodup →
    (∀ e ∈ es, ∃ c, lookupKey documents e.1 = some c ∧ c.size_bytes = e.2.2) →
    totalBytes (evictGo needed es documents file_hashes freed).1 + needed ≤
        totalBytes documents + freed ∨
      totalBytes (evictGo needed es documents file_hashes freed).1 + sumSizes es ≤
        totalBytes documents := by
  induction es with
  | nil =>
    intro documents file_hashes freed _ _ _
    right
    simp [evictGo, sumSizes]
  | cons e rest ih =>
    intro documents file_hashes freed hnod hkeys hcons
    by_cases hf : needed ≤ freed
    · left
      simp only [evictGo, if_pos hf]
      omega
    · simp only [evictGo, if_neg hf]
      rcases hcons e (List.mem_cons_self e rest) with ⟨c, hlook, hsize⟩
      have hkeyn := List.nodup_cons.mp hkeys
      have htot : totalBytes documents = totalBytes (eraseKey documents e.1) + c.size_bytes :=
        totalBytes_eraseKey documents e.1 c hnod hlook
      have hcons2 : ∀ e2 ∈ rest, ∃ c2,
          lookupKey (eraseKey documents e.1) e2.1 = some c2 ∧ c2.size_bytes = e2.2.2 := by
        intro e2 he2
        rcases hcons e2 (List.mem_cons_of_mem e he2) with ⟨c2, hl2, hsz2⟩
        have hne : e2.1 ≠ e.1 := by
          intro hc
          refine hkeyn.1 ?_
          simpa [hc] using List.mem_map_of_mem (fun x => x.1) he2
        exact ⟨c2, (lookupKey_eraseKey_ne documents e.1 e2.1 hne).trans hl2, hsz2⟩
      rcases ih (eraseKey documents e.1) (eraseKey file_hashes e.1) (freed + e.2.2)
          (nodupKeys_eraseKey _ _ hnod) hkeyn.2 hcons2 with hle | hle
      · left
        omega
      · right
        simp only [sumSizes, List.map_cons, List.sum_cons] at hle ⊢
        omega

/-! ## State-preservation lemmas for the cache operations -/

theorem persist_to_disk_documents (s : CacheState) (p : String) :
    (persist_to_disk s p).documents = s.documents := by
  unfold persist_to_disk
  cases lookupKey s.documents p <;> rfl

theorem persist_to_disk_file_hashes (s : CacheState) (p : String) :
    (persist_to_disk s p).file_hashes = s.file_hashes := by
  unfold persist_to_disk
  cases lookupKey s.documents p <;> rfl

theorem persist_to_disk_hit_count (s : CacheState) (p : String) :
    (persist_to_disk s p).hit_count = s.hit_count := by
  unfold persist_to_disk
  cases lookupKey s.documents p <;> rfl

theorem persist_to_disk_miss_count (s : CacheState) (p : String) :
    (persist_to_disk s p).miss_count = s.miss_count := by
  unfold persist_to_disk
  cases lookupKey s.documents p <;> rfl

theorem persist_to_disk_max_size_mb (s : CacheState) (p : String) :
    (persist_to_disk s p).max_size_mb = s.max_size_mb := by
  unfold persist_to_disk
  cases lookupKey s.documents p <;> rfl

theorem persist_to_disk_expiration_secs (s : CacheState) (p : String) :
    (persist_to_disk s p).expiration_secs = s.expiration_secs := by
  unfold persist_to_disk
  cases lookupKey s.documents p <;> rfl

theorem evict_if_needed_hit_count (s : CacheState) (n : Nat) :
    (evict_if_needed s n).hit_count = s.hit_count := by
  unfold evict_if_needed evict_lru_entries
  split <;> rfl

theorem evict_if_needed_miss_count (s : CacheState) (n : Nat) :
    (evict_if_needed s n).miss_count = s.miss_count := by
  unfold evict_if_needed evict_lru_entries
  split <;> rfl

theorem evict_if_needed_max_size_mb (s : CacheState) (n : Nat) :
    (evict_if_needed s n).max_size_mb = s.max_size_mb := by
  unfold evict_if_needed evict_lru_entries
  split <;> rfl

theorem evict_if_needed_expiration_secs (s : CacheState) (n : Nat) :
    (evict_if_needed s n).expiration_secs = s.expiration_secs := by
  unfold evict_if_needed evict_lru_entries
  split <;> rfl

theorem evict_if_needed_disk (s : CacheState) (n : Nat) :
    (evict_if_needed s n).disk = s.disk := by
  unfold evict_if_needed evict_lru_entries
  split <;> rfl

theorem evict_if_needed_nodup (s : CacheState) (n : Nat)
    (h : NodupKeys s.documents) : NodupKeys (evict_if_needed s n).documents := by
  unfold evict_if_needed evict_lru_entries
  split
  · exact evictGo_nodup n _ s.documents s.file_hashes 0 h
  · exact h

/-- The central eviction-accounting fact: when every entry's recorded size is
consistent with the entry map, `evict_if_needed` leaves at least `n` bytes of
headroom under the budget, provided the cache was within budget and `n`
itself fits in the budget. -/
theorem evict_if_needed_le (s : CacheState) (n : Nat)
    (hnodup : NodupKeys s.documents)
    (hbound : totalBytes s.documents ≤ s.max_size_mb * 1048576)
    (hn : n ≤ s.max_size_mb * 1048576) :
    totalBytes (evict_if_needed s n).documents + n ≤ s.max_size_mb * 1048576 := by
  unfold evict_if_needed
  by_cases hc : s.max_size_mb * 1048576 < totalBytes s.documents + n
  · simp only [if_pos hc, evict_lru_entries]
    have hkeys : ((sortByAccess (entryTriples s.documents)).map (fun e => e.1)).Nodup := by
      apply keys_sortByAccess_nodup
      rw [keys_entryTriples]
      exact hnodup
    have hcons : ∀ e ∈ sortByAccess (entryTriples s.documents), ∃ c,
        lookupKey s.documents e.1 = some c ∧ c.size_bytes = e.2.2 := by
      intro e he
      rcases mem_entryTriples _ e (mem_sortByAccess _ e he) with ⟨c, hm, hsz⟩
      exact ⟨c, lookupKey_of_mem _ _ _ hnodup hm, hsz⟩
    rcases evictGo_total_le n (sortByAccess (entryTriples s.documents)) s.documents
        s.file_hashes 0 hnodup hkeys hcons with h | h
    · omega
    · rw [sumSizes_sortByAccess, sumSizes_entryTriples] at h
      omega
  · simp only [if_neg hc]
    omega

/-- C1 (amended): a `store_document` call on a cache that is within its size
budget leaves it within the budget, provided the inserted entry's estimated
size itself fits in the budget; the budget and the no-duplicate-keys
invariant are preserved, so the bound holds after every insertion of any
such sequence of stores. -/
theorem c1_store_within_budget_amended (fs : FS) (now : Int) (s : CacheState)
    (file_path : String) (document : Document) (s' : CacheState)
    (hnodup : NodupKeys s.documents)
    (hbound : totalBytes s.documents ≤ s.max_size_mb * 1048576)
    (hdoc : estimate_document_size document ≤ s.max_size_mb * 1048576)
    (hok : store_document fs now s file_path document = .ok s') :
    totalBytes s'.documents ≤ s.max_size_mb * 1048576 ∧
      s'.max_size_mb = s.max_size_mb ∧ NodupKeys s'.documents := by
  cases hh : calculate_file_hash fs file_path with
  | error e =>
    rw [store_document, hh] at hok
    exact absurd hok (by simp)
  | ok hash =>
    simp only [store_document, hh, Except.ok.injEq] at hok
    subst hok
    have h1 : totalBytes (insertKey
          (evict_if_needed s (estimate_document_size document)).documents file_path
          { document := document, hash := hash, cached_at := now, access_count := 1,
            size_bytes := estimate_document_size document }) ≤
        totalBytes (evict_if_needed s (estimate_document_size document)).documents +
          estimate_document_size document :=
      totalBytes_insertKey_le _ _ _
    have h2 := evict_if_needed_le s (estimate_document_size document) hnodup hbound hdoc
    refine ⟨?_, ?_, ?_⟩
    · rw [persist_to_disk_documents]
      exact le_trans h1 (by omega)
    · rw [persist_to_disk_max_size_mb]
      show (evict_if_needed s (estimate_document_size document)).max_size_mb = s.max_size_mb
      exact evict_if_needed_max_size_mb s _
    · rw [persist_to_disk_documents]
      exact nodupKeys_insertKey _ _ _
        (evict_if_needed_nodup s (estimate_document_size document) hnodup)

/-! ## Concrete inputs used by witnesses and counterexamples -/

/-- A filesystem with a single small source file `a.rst`. -/
def fsOneA : FS := fun p =>
  if p = "a.rst" then some { content := "x", mtime := some 0 } else none

/-- Some 500 MB of `a`: its length is what matters, built via `replicate` so that
length facts are provable without materializing the string. -/
def bigHtml : String := String.mk (List.replicate 524288000 'a')

/-- A document whose estimated size (524289029 bytes) exceeds the 500 MB
(524288000-byte) budget on its own. -/
def bigDocument : Document :=
  { source_path := "a.rst", output_path := "", title := "", content := .plainText "",
    html := bigHtml, source_mtime := 0 }

/-- A small document used by witnesses. -/
def smallDocument : Document :=
  { source_path := "a.rst", output_path := "", title := "", content := .plainText "",
    html := "<p>x</p>", source_mtime := 0 }

/-- Total in-memory cache size after a successful store (`none` when the
store fails). -/
def storeTotalBytes (fs : FS) (now : Int) (s : CacheState) (file_path : String)
    (document : Document) : Option Nat :=
  match store_document fs now s file_path document with
  | .ok s' => some (totalBytes s'.documents)
  | .error _ => none

theorem bigHtml_length : bigHtml.length = 524288000 := by
  have h : bigHtml.length = (List.replicate 524288000 'a').length := rfl
  rw [h, List.length_replicate]

theorem est_mk (sp op t html : String) (c : DocumentContent) (mt : Int) :
    estimate_document_size { source_path := sp, output_path := op, title := t, content := c, html := html, source_mtime := mt } = html.length + t.length + sp.length + op.length + 1024 := rfl

theorem estimate_bigDocument : estimate_document_size bigDocument = 524289029 := by
  have h1 : estimate_document_size bigDocument =
      bigHtml.length + "".length + "a.rst".length + "".length + 1024 :=
    est_mk "a.rst" "" "" bigHtml (.plainText "") 0
  rw [bigHtml_length] at h1
  rw [h1]
  decide

/-- Evaluation of one `store_document` of a 524289029-byte-estimate document
into the fresh cache: the store succeeds and the in-memory total is the full
estimate.  (The eviction pass frees space only for the incoming entry and the
cache is empty, so nothing can be evicted.) -/
theorem storeTotal_of_estimate (d : Document)
    (hd : estimate_document_size d = 524289029) :
    storeTotalBytes fsOneA 0 newCacheState "a.rst" d = some 524289029 := by
  have hhash : calculate_file_hash fsOneA "a.rst" = .ok ("x", some 0) := by
    simp [calculate_file_hash, fsOneA]
  simp only [storeTotalBytes, store_document, hhash, hd]
  simp only [newCacheState, evict_if_needed, totalBytes, List.map_nil, List.sum_nil]
  norm_num
  rfl

/-- C1 (counterexample): starting from the freshly created cache (within its
500 MB budget), a single successful `store_document` of a document whose
estimated size is 524289029 bytes leaves the total estimated in-memory size
at 524289029 bytes — strictly above the 524288000-byte (500 MB) budget.
`evict_if_needed` only ever frees space equal to the incoming entry's size,
so an entry larger than the whole budget still exceeds it after insertion. -/
theorem c1_store_within_budget_counterexample :
    totalBytes newCacheState.documents ≤ newCacheState.max_size_mb * 1048576 ∧
      storeTotalBytes fsOneA 0 newCacheState "a.rst" bigDocument = some 524289029 ∧
      newCacheState.max_size_mb * 1048576 < 524289029 :=
  ⟨by decide, storeTotal_of_estimate bigDocument estimate_bigDocument, by decide⟩

/-- The state after a small witness store. -/
def c1WitnessState : CacheState :=
  match store_document fsOneA 0 newCacheState "a.rst" smallDocument with
  | .ok s' => s'
  | .error _ => newCacheState

/-- C1 witness: the amended theorem applied to a concrete small store. -/
theorem c1_store_within_budget_witness :
    totalBytes c1WitnessState.documents ≤ newCacheState.max_size_mb * 1048576 ∧
      c1WitnessState.max_size_mb = newCacheState.max_size_mb ∧
      NodupKeys c1WitnessState.documents := by
  have hok : store_document fsOneA 0 newCacheState "a.rst" smallDocument =
      .ok c1WitnessState := by rfl
  exact c1_store_within_budget_amended fsOneA 0 newCacheState "a.rst" smallDocument
    c1WitnessState (by decide) (by decide) (by decide) hok

/-- Whether fingerprinting the file would succeed (the `?` on
`calculate_file_hash` in `get_document` does not reach the counters when the
file cannot be read). -/
def hashSucceeds (fs : FS) (file_path : String) : Bool :=
  match calculate_file_hash fs file_path with
  | .ok _ => true
  | .error _ => false

/-- C9: the fingerprint is a deterministic function of the file's content
bytes and seconds-resolution mtime — two computations with the file unchanged
in between (the rest of the filesystem may change arbitrarily) yield the same
value. -/
theorem c9_fingerprint_deterministic (fs1 fs2 : FS) (file_path : String)
    (h : fs1 file_path = fs2 file_path) :
    calculate_file_hash fs1 file_path = calculate_file_hash fs2 file_path := by
  unfold calculate_file_hash
  rw [h]

/-- A second filesystem agreeing with `fsOneA` on `a.rst` but not elsewhere. -/
def fsOneA' : FS := fun p =>
  if p = "a.rst" then some { content := "x", mtime := some 0 }
  else some { content := "other", mtime := none }

/-- C9 witness: the determinism theorem applied at `a.rst` across two
filesystems that differ away from `a.rst`. -/
theorem c9_fingerprint_deterministic_witness :
    calculate_file_hash fsOneA "a.rst" = calculate_file_hash fsOneA' "a.rst" :=
  c9_fingerprint_deterministic fsOneA fsOneA' "a.rst" (by decide)

/-- C5 (amended): a lookup whose fingerprint computation succeeds increments
exactly one of the hit/miss counters; a lookup whose fingerprint computation
fails (unreadable file) returns early and increments neither. -/
theorem c5_lookup_counters_amended (fs : FS) (now : Int) (s : CacheState)
    (file_path : String) :
    if hashSucceeds fs file_path = true then
      ((get_document fs now s file_path).1.hit_count = s.hit_count + 1 ∧
          (get_document fs now s file_path).1.miss_count = s.miss_count) ∨
        ((get_document fs now s file_path).1.hit_count = s.hit_count ∧
          (get_document fs now s file_path).1.miss_count = s.miss_count + 1)
    else
      (get_document fs now s file_path).1.hit_count = s.hit_count ∧
        (get_document fs now s file_path).1.miss_count = s.miss_count := by
  cases hh : calculate_file_hash fs file_path with
  | error e =>
    simp [hashSucceeds, get_document, hh]
  | ok hash =>
    simp only [hashSucceeds, get_document, hh, if_pos]
    cases hl : lookupKey s.documents file_path with
    | none => simp [hl]
    | some cached =>
      by_cases hc : cached.hash = hash ∧ is_expired s cached.cached_at now = false
      · simp [hl, hc]
      · simp [hl, hc]

/-- C5 (counterexample): a `get_document` call on a path whose file cannot be
read (here: an empty filesystem) increments neither counter, so the sum of
the hit and miss counters does not increase by one on every call. -/
theorem c5_lookup_counters_counterexample :
    (get_document (fun _ => none) 0 newCacheState "a.rst").1.hit_count +
        (get_document (fun _ => none) 0 newCacheState "a.rst").1.miss_count ≠
      newCacheState.hit_count + newCacheState.miss_count + 1 := by
  decide

instance {e a : Type} [DecidableEq e] [DecidableEq a] : DecidableEq (Except e a)
  | .ok x, .ok y =>
    if h : x = y then .isTrue (by rw [h]) else .isFalse (by simp [h])
  | .ok _, .error _ => .isFalse (by simp)
  | .error _, .ok _ => .isFalse (by simp)
  | .error x, .error y =>
    if h : x = y then .isTrue (by rw [h]) else .isFalse (by simp [h])

/-- Lemma: `is_expired` reads only the expiration window. -/
theorem is_expired_congr (s1 s2 : CacheState) (cached_at now : Int)
    (h : s1.expiration_secs = s2.expiration_secs) :
    is_expired s1 cached_at now = is_expired s2 cached_at now := by
  simp [is_expired, h]

/-- C2: a successful `store_document` followed (with the file unchanged — the
same filesystem snapshot — and within the freshness window) by `get_document`
on the same path returns a document equal to the stored one and increments
the hit counter by exactly one, leaving the miss counter alone. -/
theorem c2_store_then_lookup (fs : FS) (now now' : Int) (s : CacheState)
    (file_path : String) (document : Document) (s' : CacheState)
    (hok : store_document fs now s file_path document = .ok s')
    (hfresh : is_expired s now now' = false) :
    (get_document fs now' s' file_path).2 = .ok document ∧
      (get_document fs now' s' file_path).1.hit_count = s'.hit_count + 1 ∧
      (get_document fs now' s' file_path).1.miss_count = s'.miss_count := by
  cases hh : calculate_file_hash fs file_path with
  | error e =>
    rw [store_document, hh] at hok
    exact absurd hok (by simp)
  | ok hash =>
    simp only [store_document, hh, Except.ok.injEq] at hok
    subst hok
    have hlk : lookupKey (persist_to_disk { evict_if_needed s (estimate_document_size document) with documents := insertKey (evict_if_needed s (estimate_document_size document)).documents file_path { document := document, hash := hash, cached_at := now, access_count := 1, size_bytes := estimate_document_size document }, file_hashes := insertKey (evict_if_needed s (estimate_document_size document)).file_hashes file_path hash } file_path).documents file_path = some { document := document, hash := hash, cached_at := now, access_count := 1, size_bytes := estimate_document_size document } := by
      rw [persist_to_disk_documents]
      exact lookupKey_insertKey_self _ _ _
    have hexp : (persist_to_disk { evict_if_needed s (estimate_document_size document) with documents := insertKey (evict_if_needed s (estimate_document_size document)).documents file_path { document := document, hash := hash, cached_at := now, access_count := 1, size_bytes := estimate_document_size document }, file_hashes := insertKey (evict_if_needed s (estimate_document_size document)).file_hashes file_path hash } file_path).expiration_secs = s.expiration_secs := by
      rw [persist_to_disk_expiration_secs]
      exact evict_if_needed_expiration_secs s _
    simp only [get_document, hh, hlk, is_expired_congr _ s _ _ hexp, hfresh, and_self,
      if_pos, and_true]

/-- The cache state right after the witness store. -/
def c2StoredState : CacheState :=
  match store_document fsOneA 0 newCacheState "a.rst" smallDocument with
  | .ok s' => s'
  | .error _ => newCacheState

/-- C2 witness: the store-then-lookup theorem applied to a concrete store of
`smallDocument` followed by a lookup ten seconds later. -/
theorem c2_store_then_lookup_witness :
    (get_document fsOneA 10 c2StoredState "a.rst").2 = .ok smallDocument ∧
      (get_document fsOneA 10 c2StoredState "a.rst").1.hit_count =
        c2StoredState.hit_count + 1 ∧
      (get_document fsOneA 10 c2StoredState "a.rst").1.miss_count =
        c2StoredState.miss_count :=
  c2_store_then_lookup fsOneA 0 10 newCacheState "a.rst" smallDocument c2StoredState
    (by rfl) (by decide)

/-- C6: a lookup of an entry past the freshness window is a miss even when
the stored fingerprint matches the file's current fingerprint — the lookup
returns an error, bumps only the miss counter, and removes the expired entry
from the in-memory store. -/
theorem c6_expired_entry_is_miss (fs : FS) (now : Int) (s : CacheState)
    (file_path : String) (cached : CachedDocument)
    (hnodup : NodupKeys s.documents)
    (hlk : lookupKey s.documents file_path = some cached)
    (hexp : is_expired s cached.cached_at now = true)
    (hh : calculate_file_hash fs file_path = .ok cached.hash) :
    (get_document fs now s file_path).2 = .error () ∧
      (get_document fs now s file_path).1.miss_count = s.miss_count + 1 ∧
      (get_document fs now s file_path).1.hit_count = s.hit_count ∧
      lookupKey (get_document fs now s file_path).1.documents file_path = none := by
  simp only [get_document, hh, hlk, hexp]
  simp [lookupKey_eraseKey_self s.documents file_path hnodup]

/-- A 24-hours-stale cache entry for `a.rst` whose fingerprint still matches
the file. -/
def expiredCached : CachedDocument :=
  { document := smallDocument, hash := ("x", some 0), cached_at := 0,
    access_count := 1, size_bytes := 1037 }

/-- A cache whose only entry is the stale `a.rst` entry. -/
def expiredState : CacheState :=
  { newCacheState with documents := [("a.rst", expiredCached)], file_hashes := [("a.rst", ("x", some 0))] }

/-- C6 witness: the expiry theorem applied to the stale entry at a time
90000 s after it was cached (past the 86400 s window). -/
theorem c6_expired_entry_is_miss_witness :
    (get_document fsOneA 90000 expiredState "a.rst").2 = .error () ∧
      (get_document fsOneA 90000 expiredState "a.rst").1.miss_count =
        expiredState.miss_count + 1 ∧
      (get_document fsOneA 90000 expiredState "a.rst").1.hit_count =
        expiredState.hit_count ∧
      lookupKey (get_document fsOneA 90000 expiredState "a.rst").1.documents "a.rst" =
        none :=
  c6_expired_entry_is_miss fsOneA 90000 expiredState "a.rst" expiredCached
    (by decide) (by decide) (by decide) (by decide)

/-- C3: if processing of any single file fails (parse or I/O error), the
whole Processing stage returns an error — files already processed contribute
no partial document set (the stage's only success value carries the full
list).  `xs` are the files processed before the failing file `f`; `ys` are
the files after it. -/
theorem c3_single_failure_aborts_build (env : BuilderEnv) (now : Int)
    (st : BuildState) (xs ys : List String) (f : String) (ds : List Document)
    (st' : BuildState)
    (h1 : process_files_parallel env now st xs = .ok (ds, st'))
    (h2 : process_single_file env now st' f = .error ()) :
    process_files_parallel env now st (xs ++ f :: ys) = .error () := by
  induction xs generalizing st ds with
  | nil =>
    simp only [process_files_parallel, Except.ok.injEq, Prod.mk.injEq] at h1
    obtain ⟨h1a, h1b⟩ := h1
    subst h1b
    simp only [List.nil_append, process_files_parallel, h2]
  | cons x xs ih =>
    cases hx : process_single_file env now st x with
    | error e =>
      simp only [process_files_parallel, hx] at h1
      exact absurd h1 (by simp)
    | ok pr =>
      obtain ⟨d1, st1⟩ := pr
      simp only [process_files_parallel, hx] at h1
      cases hrest : process_files_parallel env now st1 xs with
      | error e =>
        simp only [hrest] at h1
        exact absurd h1 (by simp)
      | ok pr2 =>
        obtain ⟨ds2, st2⟩ := pr2
        simp only [hrest, Except.ok.injEq, Prod.mk.injEq] at h1
        obtain ⟨h1a, h1b⟩ := h1
        subst h1b
        have hg := ih st1 ds2 hrest
        simp only [List.cons_append, process_files_parallel, hx, List.append_eq, hg]

/-- A builder whose parser fails on `src/b.rst` and succeeds elsewhere. -/
def c3Env : BuilderEnv :=
  { source_dir := "src", output_dir := "out", incremental := false,
    parse := fun p _ => if p = "src/b.rst" then .error () else .ok smallDocument,
    escape := fun s => s,
    fs := fun p =>
      if p = "src/a.rst" then some { content := "alpha", mtime := some 0 }
      else if p = "src/b.rst" then some { content := "beta", mtime := some 0 }
      else none }

/-- The fresh builder state. -/
def c3StartState : BuildState := { cache := newCacheState, outputs := [] }

/-- The state after successfully processing `src/a.rst`. -/
def c3MidState : BuildState :=
  match process_files_parallel c3Env 0 c3StartState ["src/a.rst"] with
  | .ok pr => pr.2
  | .error _ => c3StartState

/-- C3 witness: the abort theorem applied to a two-file build whose second
file fails to parse. -/
theorem c3_single_failure_aborts_build_witness :
    process_files_parallel c3Env 0 c3StartState ["src/a.rst", "src/b.rst"] =
      .error () :=
  c3_single_failure_aborts_build c3Env 0 c3StartState ["src/a.rst"] [] "src/b.rst"
    [smallDocument] c3MidState (by rfl) (by rfl)

/-- C10: eviction removes entries only from the two in-memory maps — the
on-disk cache directory is untouched, so every evicted entry's shadow file
(`get_cache_file_path`) survives and remains loadable at the next startup;
`invalidate`, by contrast, also deletes the shadow file. -/
theorem c10_eviction_leaves_disk_untouched (s : CacheState) (space_needed : Nat)
    (file_path : String) :
    (evict_lru_entries s space_needed).disk = s.disk ∧
      lookupKey (evict_lru_entries s space_needed).disk (get_cache_file_path file_path) =
        lookupKey s.disk (get_cache_file_path file_path) ∧
      (invalidate s file_path).disk = eraseKey s.disk (get_cache_file_path file_path) :=
  ⟨rfl, rfl, rfl⟩

/-- C4: on startup, a persisted entry (a decodable `json` cache file) is
loaded into the in-memory store iff it is not expired, its source file still
exists, and the freshly computed fingerprint equals the persisted hash; a
corrupt (undecodable) persisted file is skipped and leaves the state exactly
as it was — `load_from_disk` is total, so a corrupt file can never fail
startup. -/
theorem c4_startup_load_filter (fs : FS) (now : Int) (s : CacheState)
    (name : String) (cached : CachedDocument)
    (hjson : hasJsonExtension name = true)
    (hnew : lookupKey s.documents cached.document.source_path = none) :
    (lookupKey (load_from_disk fs now { s with disk := [(name, some cached)] }).documents cached.document.source_path = some cached ↔
        (is_expired s cached.cached_at now = false ∧
          (fs cached.document.source_path).isSome = true ∧
          calculate_file_hash fs cached.document.source_path = .ok cached.hash)) ∧
      load_from_disk fs now { s with disk := [(name, none)] } = { s with disk := [(name, none)] } := by
  have hrw : is_expired { s with disk := [(name, some cached)] } cached.cached_at now = is_expired s cached.cached_at now := rfl
  constructor
  · simp only [load_from_disk, List.foldl_cons, List.foldl_nil, hjson, if_true]
    by_cases hexp : is_expired s cached.cached_at now = true
    · simp [load_cache_file, hrw, hexp, hnew]
    · have hexp' : is_expired s cached.cached_at now = false := by
        simpa using hexp
      cases hfs : fs cached.document.source_path with
      | none =>
        simp [load_cache_file, hrw, hexp', hfs, hnew]
      | some m =>
        by_cases hh : ((m.content, m.mtime) : FileHash) = cached.hash
        · simp [load_cache_file, hrw, hexp', hfs, calculate_file_hash, hh,
            lookupKey_insertKey_self]
        · simp [load_cache_file, hrw, hexp', hfs, calculate_file_hash, hh, hnew]
  · simp [load_from_disk, hjson, load_cache_file]

/-- A fresh (not expired, matching fingerprint) persisted entry for `a.rst`. -/
def freshCached : CachedDocument :=
  { document := smallDocument, hash := ("x", some 0), cached_at := 0,
    access_count := 1, size_bytes := 1037 }

/-- C4 witness: the startup-load theorem applied to a single persisted entry
in a fresh cache directory state. -/
theorem c4_startup_load_filter_witness :
    (lookupKey (load_from_disk fsOneA 10 { newCacheState with disk := [("a.json", some freshCached)] }).documents freshCached.document.source_path = some freshCached ↔
        (is_expired newCacheState freshCached.cached_at 10 = false ∧
          (fsOneA freshCached.document.source_path).isSome = true ∧
          calculate_file_hash fsOneA freshCached.document.source_path = .ok freshCached.hash)) ∧
      load_from_disk fsOneA 10 { newCacheState with disk := [("a.json", none)] } = { newCacheState with disk := [("a.json", none)] } :=
  c4_startup_load_filter fsOneA 10 newCacheState "a.json" freshCached (by decide)
    (by decide)

/-! ## Discovery characterization (C7) -/

theorem selectedPath_nil (p : List String) : ¬ SelectedPath [] p := by
  intro h
  cases h with
  | file hm _ => simp at hm
  | dir hm _ _ => simp at hm

theorem selectedPath_singleton_file_iff (name : String) (p : List String) :
    SelectedPath [FsTree.file name] p ↔ p = [name] ∧ is_source_file name = true := by
  constructor
  · intro h
    cases h with
    | file hm hsrc =>
      have := List.mem_singleton.mp hm
      cases this
      exact ⟨rfl, hsrc⟩
    | dir hm _ _ =>
      have := List.mem_singleton.mp hm
      cases this
  · rintro ⟨rfl, hsrc⟩
    exact .file (List.mem_singleton_self _) hsrc

theorem selectedPath_singleton_dir_iff (d : String) (sub : List FsTree) (p : List String) :
    SelectedPath [FsTree.dir d sub] p ↔
      ∃ rest, p = d :: rest ∧ skipDirName d = false ∧ SelectedPath sub rest := by
  constructor
  · intro h
    cases h with
    | file hm _ =>
      have := List.mem_singleton.mp hm
      cases this
    | dir hm hskip hsub =>
      have := List.mem_singleton.mp hm
      cases this
      exact ⟨_, rfl, hskip, hsub⟩
  · rintro ⟨rest, rfl, hskip, hsub⟩
    exact .dir (List.mem_singleton_self _) hskip hsub

theorem selectedPath_cons_iff (t : FsTree) (ts : List FsTree) (p : List String) :
    SelectedPath (t :: ts) p ↔ SelectedPath [t] p ∨ SelectedPath ts p := by
  constructor
  · intro h
    cases h with
    | file hm hsrc =>
      rcases List.mem_cons.mp hm with h1 | h1
      · exact Or.inl (.file (List.mem_singleton.mpr h1) hsrc)
      · exact Or.inr (.file h1 hsrc)
    | dir hm hskip hsub =>
      rcases List.mem_cons.mp hm with h1 | h1
      · exact Or.inl (.dir (List.mem_singleton.mpr h1) hskip hsub)
      · exact Or.inr (.dir h1 hskip hsub)
  · intro h
    rcases h with h | h
    · cases h with
      | file hm hsrc =>
        have := List.mem_singleton.mp hm
        exact .file (this ▸ List.mem_cons_self t ts) hsrc
      | dir hm hskip hsub =>
        have := List.mem_singleton.mp hm
        exact .dir (this ▸ List.mem_cons_self t ts) hskip hsub
    · cases h with
      | file hm hsrc => exact .file (List.mem_cons_of_mem t hm) hsrc
      | dir hm hskip hsub => exact .dir (List.mem_cons_of_mem t hm) hskip hsub

mutual

theorem mem_discoverEntry (output_dir : List String) (t : FsTree) (pre q : List String) :
    q ∈ discoverEntry output_dir t pre ↔ ∃ p, q = pre ++ p ∧ SelectedPath [t] p := by
  cases t with
  | file name =>
    by_cases hs : is_source_file name = true
    · simp [discoverEntry, hs, selectedPath_singleton_file_iff]
    · simp [discoverEntry, hs, selectedPath_singleton_file_iff]
  | dir d sub =>
    by_cases hd : skipDirName d = true
    · simp [discoverEntry, hd, selectedPath_singleton_dir_iff]
    · have hd' : skipDirName d = false := by simpa using hd
      have hsub := mem_discoverList output_dir sub (pre ++ [d]) q
      rw [discoverEntry, if_neg hd, hsub]
      constructor
      · rintro ⟨p', rfl, hp'⟩
        exact ⟨d :: p', by simp, (selectedPath_singleton_dir_iff d sub (d :: p')).mpr ⟨p', rfl, hd', hp'⟩⟩
      · rintro ⟨p, rfl, hp⟩
        rcases (selectedPath_singleton_dir_iff d sub p).mp hp with ⟨rest, rfl, _, hrest⟩
        exact ⟨rest, by simp, hrest⟩

theorem mem_discoverList (output_dir : List String) (ts : List FsTree) (pre q : List String) :
    q ∈ discoverList output_dir ts pre ↔ ∃ p, q = pre ++ p ∧ SelectedPath ts p := by
  cases ts with
  | nil => simp [discoverList, selectedPath_nil]
  | cons t ts =>
    have he := mem_discoverEntry output_dir t pre q
    have hl := mem_discoverList output_dir ts pre q
    constructor
    · intro hq
      rcases List.mem_append.mp (by simpa [discoverList] using hq) with h | h
      · rcases he.mp h with ⟨p, rfl, hp⟩
        exact ⟨p, rfl, (selectedPath_cons_iff t ts p).mpr (Or.inl hp)⟩
      · rcases hl.mp h with ⟨p, rfl, hp⟩
        exact ⟨p, rfl, (selectedPath_cons_iff t ts p).mpr (Or.inr hp)⟩
    · rintro ⟨p, rfl, hp⟩
      rcases (selectedPath_cons_iff t ts p).mp hp with h | h
      · simp only [discoverList, List.mem_append]
        exact Or.inl (he.mpr ⟨p, rfl, h⟩)
      · simp only [discoverList, List.mem_append]
        exact Or.inr (hl.mpr ⟨p, rfl, h⟩)

end

/-- C7 (amended): discovery collects exactly the files with a recognized
extension (`rst`/`md`/`txt`) reachable from the source root without passing
through a directory whose name is hidden (leading dot) or `_build` or
`__pycache__`.  The configured output directory is not consulted: it is
skipped only when its own name matches that filter (as the conventional
`_build` does). -/
theorem c7_discovery_amended (output_dir source_dir : List String)
    (rootEntries : List FsTree) (q : List String) :
    q ∈ discover_source_files output_dir source_dir rootEntries ↔
      ∃ p, q = source_dir ++ p ∧ SelectedPath rootEntries p :=
  mem_discoverList output_dir rootEntries source_dir q

/-- C7 (counterexample): with the output directory configured as `src/out`,
nested under the source root `src` and named neither `_build` nor
`__pycache__` nor hidden, discovery does descend into it and collects
`src/out/page.rst` — the walk never consults the configured output
directory. -/
theorem c7_discovery_counterexample :
    ["src", "out", "page.rst"] ∈ discover_source_files ["src", "out"] ["src"]
      [FsTree.dir "out" [FsTree.file "page.rst"], FsTree.file "index.rst"] := by
  simp only [discover_source_files, discoverList, discoverEntry]
  decide

/-! ## Validator lemmas (C8) -/

theorem warning_type_of_missing_ref (source_dir : String) (docs : List Document)
    (w : BuildWarning) (h : w ∈ missing_ref_warnings source_dir docs) :
    w.warning_type = .missingToctreeRef := by
  simp only [missing_ref_warnings, List.mem_filterMap] at h
  rcases h with ⟨e, _, he⟩
  split at he
  · exact absurd he (by simp)
  · simp only [Option.some.injEq] at he
    rw [← he]
    rfl

theorem orphan_warning_mem_iff (source_dir : String) (docs : List Document)
    (path : String) :
    BuildWarning.orphaned_document path ∈ orphan_warnings source_dir docs ↔
      ∃ doc ∈ docs, doc.source_path = path ∧
        doc_path_str source_dir doc ≠ "index" ∧
        isReferenced docs (doc_path_str source_dir doc) = false := by
  simp only [orphan_warnings, List.mem_filterMap]
  constructor
  · rintro ⟨doc, hmem, hf⟩
    by_cases h1 : doc_path_str source_dir doc = "index"
    · simp [h1] at hf
    · by_cases h2 : isReferenced docs (doc_path_str source_dir doc) = true
      · simp [h1, h2] at hf
      · simp [h1, h2, BuildWarning.orphaned_document, BuildWarning.mk.injEq] at hf
        exact ⟨doc, hmem, hf, h1, by simpa using h2⟩
  · rintro ⟨doc, hmem, rfl, h1, h2⟩
    refine ⟨doc, hmem, ?_⟩
    simp [h1, h2]

/-- C8 (amended): after validation, for every produced document whose
source-root-relative extension-free name is not the literal `"index"` (the
code hardcodes that name; it does not consult the configured root document),
an orphaned-document warning — never an error — is reported against the
document if and only if no navigation-tree reference in the produced set
reaches it by exact match, as an `index` child, or as a path-prefix
descendant. -/
theorem c8_orphan_warning_amended (config : BuildConfig) (source_dir : String)
    (docs : List Document) (warnings : List BuildWarning)
    (errors : List BuildErrorReport) (d : Document)
    (hd : d ∈ docs) (hroot : doc_path_str source_dir d ≠ "index") :
    (BuildWarning.orphaned_document d.source_path ∈
        validate_documents config source_dir docs ↔
      isReferenced docs (doc_path_str source_dir d) = false) ∧
      (validate_documents_run config source_dir docs warnings errors).2 = errors := by
  constructor
  · rw [validate_documents, List.mem_append]
    constructor
    · rintro (h | h)
      · exact absurd (warning_type_of_missing_ref _ _ _ h)
          (by simp [BuildWarning.orphaned_document])
      · rcases (orphan_warning_mem_iff _ _ _).mp h with ⟨doc, _, hsp, _, href⟩
        have heq : doc_path_str source_dir doc = doc_path_str source_dir d := by
          rw [doc_path_str, doc_path_str, hsp]
        rwa [heq] at href
    · intro h
      exact Or.inr ((orphan_warning_mem_iff _ _ _).mpr ⟨d, hd, rfl, hroot, h⟩)
  · rfl

/-- A produced document named `index` (relative to source root `src`). -/
def docIndexC : Document :=
  { source_path := "src/index.rst", output_path := "", title := "",
    content := .plainText "", html := "", source_mtime := 0 }

/-- A produced document named `contents`, with no toctrees anywhere. -/
def docContentsC : Document :=
  { source_path := "src/contents.rst", output_path := "", title := "",
    content := .plainText "", html := "", source_mtime := 0 }

/-- A configuration whose root document is `contents`, not `index`. -/
def c8Config : BuildConfig := { root_doc := some "contents" }

/-- C8 (counterexample): with the root document configured as `contents`,
the produced document `index` is not the configured root and is reachable
from no navigation-tree reference, yet validation reports no warning against
it — the code skips the hardcoded name `index`, not the configured root. -/
theorem c8_orphan_warning_counterexample :
    c8Config.root_doc = some "contents" ∧
      doc_path_str "src" docIndexC = "index" ∧
      docIndexC ∈ [docIndexC, docContentsC] ∧
      isReferenced [docIndexC, docContentsC] (doc_path_str "src" docIndexC) = false ∧
      BuildWarning.orphaned_document docIndexC.source_path ∉
        validate_documents c8Config "src" [docIndexC, docContentsC] := by
  decide

/-- C8 witness: the amended theorem applied to the unreferenced non-`index`
document `contents`, which does receive the orphan warning. -/
theorem c8_orphan_warning_witness :
    (BuildWarning.orphaned_document docContentsC.source_path ∈
        validate_documents c8Config "src" [docIndexC, docContentsC] ↔
      isReferenced [docIndexC, docContentsC] (doc_path_str "src" docContentsC) =
        false) ∧
      (validate_documents_run c8Config "src" [docIndexC, docContentsC] [] []).2 =
        [] :=
  c8_orphan_warning_amended c8Config "src" [docIndexC, docContentsC] [] []
    docContentsC (by decide) (by decide)
